import Mathlib

/-!
Verification of the form-field-extractor core (Go) against its
natural-language specification.

The Go sources are shallowly embedded below:
* `cleanPDFFieldName`, `pdfExtract` embed `cleanPDFFieldName` and
  `PDFFormExtractor.Extract` from `pkg/scrapper/pdf.go`;
* `resolveLabel`, `htmlExtract` embed the element loop of
  `HTMLFormExtractor.Extract` from `pkg/scrapper/html.go`;
* `newFormExtractorChoice`, `extractFieldsTrace` embed
  `Scrapper.newFormExtractor` and `Scrapper.ExtractFields` from
  `pkg/scrapper/scrapper.go`;
* the string helpers embed the `strings`/`strconv` standard-library
  functions the code calls (`Fields`, `Join`, `TrimSpace`, `Trim`,
  `LastIndex`, `HasSuffix`, `ToLower`, `Atoi`).

Go strings are modelled as Lean `String` (lists of characters); byte
indices computed by the Go code are only ever used to slice around
single-byte ASCII characters, where character slicing coincides with
byte slicing.  `strings.ToLower` is modelled on the ASCII range: no
Unicode code point outside ASCII has a simple lower-case mapping equal
to any character of `".pdf"`, so the dispatch predicate is unaffected.
Go `int` is modelled as a 64-bit quantity (the project's targets are
64-bit platforms).
-/

/-- Whitespace predicate of Go `unicode.IsSpace` (the class used by
`strings.Fields` and `strings.TrimSpace`): Latin-1 whitespace plus the
Unicode `White_Space` code points. -/
def goIsSpace (c : Char) : Bool :=
  c == ' ' || c == '\t' || c == '\n' || c == '\x0b' || c == '\x0c' || c == '\r' ||
  c == '\u0085' || c == '\u00a0' ||
  c == '\u1680' || ('\u2000' ≤ c && c ≤ '\u200a') ||
  c == '\u2028' || c == '\u2029' || c == '\u202f' || c == '\u205f' || c == '\u3000'

/-- Accumulator pass of `strings.Fields`: split into maximal runs of
non-whitespace characters. -/
def goFieldsAux : List Char → List Char → List (List Char)
  | acc, [] => if acc.isEmpty then [] else [acc.reverse]
  | acc, c :: cs =>
    if goIsSpace c then
      if acc.isEmpty then goFieldsAux [] cs
      else acc.reverse :: goFieldsAux [] cs
    else goFieldsAux (c :: acc) cs

/-- Embeds Go `strings.Fields`. -/
def goFields (s : String) : List String :=
  (goFieldsAux [] s.data).map String.mk

/-- Embeds Go `strings.Join(parts, " ")`. -/
def joinSpace : List String → String
  | [] => ""
  | [x] => x
  | x :: y :: ys => x ++ " " ++ joinSpace (y :: ys)

/-- Trim characters satisfying `p` from the front of a character list. -/
def trimLeftP (p : Char → Bool) (l : List Char) : List Char :=
  l.dropWhile p

/-- Trim characters satisfying `p` from the back of a character list. -/
def trimRightP (p : Char → Bool) (l : List Char) : List Char :=
  (l.reverse.dropWhile p).reverse

/-- Trim characters satisfying `p` from both ends (the shape of Go
`strings.Trim` / `strings.TrimSpace` with a unit cutset). -/
def goTrimP (p : Char → Bool) (l : List Char) : List Char :=
  trimRightP p (trimLeftP p l)

/-- Embeds Go `strings.TrimSpace`. -/
def goTrimSpace (s : String) : String :=
  String.mk (goTrimP goIsSpace s.data)

/-- Embeds Go `strings.Trim(s, cutset)` for a single-character cutset. -/
def goTrimChar (s : String) (c : Char) : String :=
  String.mk (goTrimP (fun x => x == c) s.data)

/-- Lines 126-128 of the PDF normalizer: `strings.TrimSpace`, then
`strings.Trim(baseName, "\x22")`, then `strings.Trim(baseName, "\x7d")`. -/
def cleanBase (s : String) : String :=
  goTrimChar (goTrimChar (goTrimSpace s) '\x22') '\x7d'

/-- Decimal digit accumulation used to model `strconv.Atoi`. -/
def digitsToNat (l : List Char) : Nat :=
  l.foldl (fun a c => 10 * a + (c.toNat - 48)) 0

/-- Embeds Go `strconv.Atoi` (= `strconv.ParseInt(s, 10, 0)` with 64-bit
`int`): an optional single ASCII sign followed by one or more ASCII
decimal digits, whose value fits the signed 64-bit range; anything else
is an error (`none`). -/
def goAtoi (s : String) : Option Int :=
  match s.data with
  | [] => none
  | c :: cs =>
    let neg := c == '-'
    let ds := if c == '-' || c == '+' then cs else c :: cs
    if ds.isEmpty then none
    else if ds.all Char.isDigit then
      let n := digitsToNat ds
      if neg then
        if n ≤ 9223372036854775808 then some (-(n : Int)) else none
      else
        if n ≤ 9223372036854775807 then some ((n : Int)) else none
    else none

/-- Splits a character list around the last occurrence of an underscore:
the list-level reading of `idx := strings.LastIndex(baseName, "_")`
together with the byte slices `baseName[:idx]` and `baseName[idx+1:]`
taken by the source (`'_'` is a single-byte character). -/
def splitLastUnder : List Char → Option (List Char × List Char)
  | [] => none
  | c :: cs =>
    match splitLastUnder cs with
    | some (b, a) => some (c :: b, a)
    | none => if c == '_' then some ([], cs) else none

/-- The branch of `cleanPDFFieldName` taken for tails of at least two
tokens, as a function of the tokens after the first one. -/
def normTail (rest : List String) : String × String :=
  let baseName0 := goTrimSpace (joinSpace rest)
  match splitLastUnder baseName0.data with
  | some (before, after) =>
    if (goAtoi (String.mk after)).isSome then
      let base := cleanBase (goTrimSpace (String.mk before))
      (base ++ String.mk ('_' :: after), base ++ " (" ++ String.mk after ++ ")")
    else
      let base := cleanBase baseName0
      (base, base)
  | none =>
    let base := cleanBase baseName0
    (base, base)

/-- Embeds `cleanPDFFieldName` (pkg/scrapper/pdf.go, lines 108-142).
Returns the pair `(cleanName, label)`. -/
def cleanPDFFieldName (name : String) : String × String :=
  let parts := goFields name
  if parts.length < 2 then (name, name)
  else normTail (parts.drop 1)

/-- Embeds the `FormField` record (pkg/scrapper/types.go). -/
structure FormField where
  name : String
  type : String
  label : String
  required : Bool
  value : String
deriving DecidableEq

/-- Embeds the descriptor loop of `PDFFormExtractor.Extract`
(pkg/scrapper/pdf.go, lines 38-52), taking as input the list of
stringified field descriptors produced by the external PDF parser. -/
def pdfExtract : List String → List FormField
  | [] => []
  | d :: ds =>
    match goFields d with
    | _ :: _ :: t2 :: rest =>
      let r := cleanPDFFieldName (joinSpace rest)
      { name := r.1, type := t2, label := r.2, required := false, value := "" }
        :: pdfExtract ds
    | _ => pdfExtract ds

example : cleanPDFFieldName "" = ("", "") := by decide
example : cleanPDFFieldName "1 name_2" = ("name_2", "name (2)") := by decide
example : cleanPDFFieldName "a x_-5" = ("x_-5", "x (-5)") := by decide

/-! ### Specification-side formulations

The following definitions restate, in the spec's own words, the cleanup
steps of the name normalizer; they are compared against the functions
embedded from the source. -/

/-- Spec wording: remove the leading run of characters satisfying `p`. -/
def dropLeadingSpec (p : Char → Bool) : List Char → List Char
  | [] => []
  | c :: cs => if p c then dropLeadingSpec p cs else c :: cs

/-- Spec wording: remove the trailing run of characters satisfying `p`. -/
def dropTrailingSpec (p : Char → Bool) : List Char → List Char
  | [] => []
  | c :: cs =>
    let r := dropTrailingSpec p cs
    if r.isEmpty then (if p c then [] else [c]) else c :: r

/-- Spec wording of the base-name cleanup: strip surrounding whitespace,
then strip leading/trailing quote characters, then leading/trailing
closing-brace characters, in that order, touching nothing else. -/
def cleanBaseSpec (s : String) : String :=
  let w := dropTrailingSpec goIsSpace (dropLeadingSpec goIsSpace s.data)
  let q := dropTrailingSpec (fun c => c == '\x22') (dropLeadingSpec (fun c => c == '\x22') w)
  String.mk (dropTrailingSpec (fun c => c == '\x7d') (dropLeadingSpec (fun c => c == '\x7d') q))

lemma dropLeadingSpec_eq (p : Char → Bool) (l : List Char) :
    dropLeadingSpec p l = l.dropWhile p := by
  induction l with
  | nil => rfl
  | cons c cs ih => by_cases h : p c <;> simp [dropLeadingSpec, List.dropWhile_cons, h, ih]

lemma dropTrailingSpec_eq (p : Char → Bool) (l : List Char) :
    dropTrailingSpec p l = (l.reverse.dropWhile p).reverse := by
  induction l with
  | nil => rfl
  | cons c cs ih =>
    rw [List.reverse_cons, List.dropWhile_append]
    by_cases h : (cs.reverse.dropWhile p).isEmpty
    · have hnil : cs.reverse.dropWhile p = [] := List.isEmpty_iff.mp h
      rw [if_pos h]
      have hspec : dropTrailingSpec p cs = [] := by rw [ih, hnil]; rfl
      by_cases hp : p c <;>
        simp [dropTrailingSpec, hspec, List.dropWhile_cons, hp]
    · have hni : cs.reverse.dropWhile p ≠ [] := fun hc => h (List.isEmpty_iff.mpr hc)
      rw [if_neg h]
      have hcond : ((cs.reverse.dropWhile p).reverse).isEmpty = false := by
        simpa [List.reverse_eq_nil_iff] using hni
      simp only [dropTrailingSpec, ih, hcond, Bool.false_eq_true, if_false,
        List.reverse_append, List.reverse_cons, List.reverse_nil, List.nil_append,
        List.singleton_append]

lemma goTrimP_eq_spec (p : Char → Bool) (l : List Char) :
    dropTrailingSpec p (dropLeadingSpec p l) = goTrimP p l := by
  rw [dropLeadingSpec_eq, dropTrailingSpec_eq, goTrimP, trimRightP, trimLeftP]

lemma cleanBase_eq_spec (s : String) : cleanBase s = cleanBaseSpec s := by
  simp only [cleanBase, cleanBaseSpec, goTrimChar, goTrimSpace, goTrimP_eq_spec]

/-- Spec wording of the suffix test amended to the code's behaviour:
an optional single ASCII sign followed by one or more ASCII decimal
digits whose value fits the signed 64-bit integer range. -/
def atoiAcceptsSpec (l : List Char) : Bool :=
  match l with
  | [] => false
  | c :: cs =>
    if c == '-' then
      !cs.isEmpty && cs.all Char.isDigit &&
        decide (digitsToNat cs ≤ 9223372036854775808)
    else if c == '+' then
      !cs.isEmpty && cs.all Char.isDigit &&
        decide (digitsToNat cs ≤ 9223372036854775807)
    else
      (c :: cs).all Char.isDigit &&
        decide (digitsToNat (c :: cs) ≤ 9223372036854775807)

lemma goAtoi_isSome_eq (l : List Char) :
    (goAtoi (String.mk l)).isSome = atoiAcceptsSpec l := by
  match l with
  | [] => rfl
  | c :: cs =>
    show (goAtoi (String.mk (c :: cs))).isSome = atoiAcceptsSpec (c :: cs)
    by_cases hm : c == '-'
    · simp only [goAtoi, atoiAcceptsSpec, hm, Bool.true_or, if_true]
      by_cases h1 : cs.isEmpty
      · simp [h1]
      · by_cases h2 : cs.all Char.isDigit
        · by_cases h3 : digitsToNat cs ≤ 9223372036854775808 <;>
            simp [h1, h2, h3]
        · simp [h1, h2]
    · by_cases hp : c == '+'
      · simp only [goAtoi, atoiAcceptsSpec, hm, hp, Bool.false_or, Bool.or_true,
          if_true, Bool.false_eq_true, if_false]
        by_cases h1 : cs.isEmpty
        · simp [h1]
        · by_cases h2 : cs.all Char.isDigit
          · by_cases h3 : digitsToNat cs ≤ 9223372036854775807 <;>
              simp [h1, h2, h3]
          · simp [h1, h2]
      · simp only [goAtoi, atoiAcceptsSpec, hm, hp, Bool.or_self, Bool.false_eq_true,
          if_false, List.isEmpty_cons]
        by_cases h2 : (c :: cs).all Char.isDigit
        · by_cases h3 : digitsToNat (c :: cs) ≤ 9223372036854775807 <;>
            simp [h2, h3]
        · simp [h2]

/-- Spec wording: split a character list at the first occurrence of `t`,
returning the pieces before and after it. -/
def firstSplit (t : Char) : List Char → Option (List Char × List Char)
  | [] => none
  | x :: xs =>
    if x == t then some ([], xs)
    else (firstSplit t xs).map (fun ba => (x :: ba.1, ba.2))

/-- Spec wording of the last-underscore scan: reverse the string, split
at the first underscore of the reversal, and read off the base and the
candidate suffix. -/
def splitLastUnderSpec (l : List Char) : Option (List Char × List Char) :=
  (firstSplit '_' l.reverse).map (fun sa => (sa.2.reverse, sa.1.reverse))

lemma firstSplit_append (t : Char) (xs ys : List Char) :
    firstSplit t (xs ++ ys) =
      match firstSplit t xs with
      | some (b, a) => some (b, a ++ ys)
      | none => (firstSplit t ys).map (fun ba => (xs ++ ba.1, ba.2)) := by
  induction xs with
  | nil =>
    cases h : firstSplit t ys with
    | none => simp [firstSplit, h]
    | some ba => simp [firstSplit, h]
  | cons x xs ih =>
    by_cases hx : x == t
    · simp [firstSplit, hx]
    · cases h : firstSplit t xs with
      | none =>
        cases hy : firstSplit t ys with
        | none => simp [firstSplit, hx, ih, h, hy]
        | some ba => simp [firstSplit, hx, ih, h, hy]
      | some ba => simp [firstSplit, hx, ih, h]

lemma splitLastUnder_eq_spec (l : List Char) :
    splitLastUnderSpec l = splitLastUnder l := by
  induction l with
  | nil => rfl
  | cons c cs ih =>
    unfold splitLastUnderSpec splitLastUnder
    rw [List.reverse_cons, firstSplit_append]
    cases h : firstSplit '_' cs.reverse with
    | some sa =>
      have : splitLastUnder cs = some (sa.2.reverse, sa.1.reverse) := by
        rw [← ih]; unfold splitLastUnderSpec; rw [h]; rfl
      rw [this]
      simp
    | none =>
      have hnone : splitLastUnder cs = none := by
        rw [← ih]; unfold splitLastUnderSpec; rw [h]; rfl
      rw [hnone]
      by_cases hc : c == '_'
      · simp [firstSplit, hc]
      · simp [firstSplit, hc]

lemma cleanPDFFieldName_eq_normTail (s : String) (h : 2 ≤ (goFields s).length) :
    cleanPDFFieldName s = normTail ((goFields s).drop 1) := by
  have hnl : ¬ (goFields s).length < 2 := by omega
  simp only [cleanPDFFieldName]
  rw [if_neg hnl]

/-- The property claimed by C2, amended to the code's suffix test: the
tail after the last underscore counts as a suffix exactly when it is an
optional single ASCII sign followed by decimal digits whose value fits a
signed 64-bit integer (`strconv.Atoi`); with a suffix, `cleanName` is
the cleaned base with `_<suffixtext>` re-appended verbatim and the label
is the cleaned base followed by `" (<suffixtext>)"`; otherwise both
results are the cleaned base. -/
def c2Spec (s : String) : Prop :=
  match splitLastUnderSpec (goTrimSpace (joinSpace ((goFields s).drop 1))).data with
  | some (before, after) =>
    if atoiAcceptsSpec after then
      cleanPDFFieldName s =
        (cleanBaseSpec (goTrimSpace (String.mk before)) ++ String.mk ('_' :: after),
         cleanBaseSpec (goTrimSpace (String.mk before)) ++ " (" ++ String.mk after ++ ")")
    else
      cleanPDFFieldName s =
        (cleanBaseSpec (goTrimSpace (joinSpace ((goFields s).drop 1))),
         cleanBaseSpec (goTrimSpace (joinSpace ((goFields s).drop 1))))
  | none =>
    cleanPDFFieldName s =
      (cleanBaseSpec (goTrimSpace (joinSpace ((goFields s).drop 1))),
       cleanBaseSpec (goTrimSpace (joinSpace ((goFields s).drop 1))))

/-- C2 (amended): for every raw PDF name tail with at least 2 tokens,
the trailing-suffix rule of `cleanPDFFieldName` follows `c2Spec`: the
substring after the last `_` is a suffix exactly when Go `strconv.Atoi`
accepts it (optional sign and 64-bit range included, so negative
suffixes are also recognized, unlike the original claim); a recognized
suffix is re-appended verbatim to the clean name and rendered
`" (<suffix>)"` in the label, and otherwise clean name and label both
equal the cleaned base name. -/
theorem c2_suffix_rule_amended (s : String) (h : 2 ≤ (goFields s).length) :
    c2Spec s := by
  have hcl := cleanPDFFieldName_eq_normTail s h
  unfold c2Spec
  rw [splitLastUnder_eq_spec, hcl]
  simp only [normTail]
  cases hs : splitLastUnder (goTrimSpace (joinSpace ((goFields s).drop 1))).data with
  | none => simp [cleanBase_eq_spec]
  | some ba =>
    obtain ⟨before, after⟩ := ba
    simp only [← goAtoi_isSome_eq]
    by_cases ha : (goAtoi (String.mk after)).isSome
    · simp [ha, cleanBase_eq_spec]
    · simp [ha, cleanBase_eq_spec]

/-- Witness for C2 (amended) at the tail `"1 name_2"`. -/
theorem c2_suffix_rule_amended_witness :
    2 ≤ (goFields "1 name_2").length ∧ c2Spec "1 name_2" :=
  ⟨by decide, c2_suffix_rule_amended "1 name_2" (by decide)⟩

/-- Counterexample to C2 as stated: in the tail `"a x_-5"` the substring
after the last `_` is `"-5"`, which is not an unsigned decimal number,
yet the code recognizes it as a suffix (Go `strconv.Atoi` accepts signed
input), so the label is `"x (-5)"` instead of the claimed `"x_-5"`. -/
theorem c2_suffix_rule_counterexample :
    cleanPDFFieldName "a x_-5" = ("x_-5", "x (-5)") ∧
    ("-5".data.all Char.isDigit) = false ∧
    (cleanPDFFieldName "a x_-5").2 ≠ "x_-5" := by decide

/-- C6 (amended): the base-name cleanup of `cleanPDFFieldName` strips
surrounding whitespace, then all leading and trailing `"` characters,
then all leading and trailing `}` characters — both ends, not only the
trailing `}` of the original claim — in that order, and removes nothing
else. -/
theorem c6_cleaning_amended (s : String) : cleanBase s = cleanBaseSpec s :=
  cleanBase_eq_spec s

/-- Counterexample to C6 as stated: in the tail `"a }x"` the base name
is `"}x"` with a leading (not trailing) `}`, and the code strips it:
the clean name is `"x"`, not the `"}x"` the claim requires. -/
theorem c6_cleaning_counterexample :
    cleanPDFFieldName (String.mk ['a', ' ', '\x7d', 'x']) =
      (String.mk ['x'], String.mk ['x']) ∧
    String.mk ['x'] ≠ String.mk ['\x7d', 'x'] := by decide

/-- Spec wording for C5: a descriptor is kept exactly when it has at
least 3 whitespace-separated tokens. -/
def keepDescriptor (d : String) : Bool :=
  decide (3 ≤ (goFields d).length)

/-- Spec wording for C5: the single record emitted for a kept
descriptor — type is the 3rd token, name and label are the
normalization of the tokens from the 4th on, rejoined by single
spaces. -/
def mkFieldSpec (d : String) : FormField :=
  { name := (cleanPDFFieldName (joinSpace ((goFields d).drop 3))).1,
    type := (goFields d).getD 2 "",
    label := (cleanPDFFieldName (joinSpace ((goFields d).drop 3))).2,
    required := false,
    value := "" }

/-- C5: `PDFFormExtractor.Extract` skips exactly the descriptors with
fewer than 3 tokens, emits exactly one record per remaining descriptor
(type = 3rd token, name/label = normalized join of tokens 4+), and
preserves the input order: it equals filter-then-map. -/
theorem c5_pdf_extract_shape (ds : List String) :
    pdfExtract ds = (ds.filter keepDescriptor).map mkFieldSpec := by
  induction ds with
  | nil => rfl
  | cons d ds ih =>
    rcases hg : goFields d with _ | ⟨a, _ | ⟨b, _ | ⟨c, rest⟩⟩⟩ <;>
      simp [pdfExtract, keepDescriptor, mkFieldSpec, hg, ih, List.filter_cons,
        List.getD]

/-- C8 (read as: the first token of a multi-token tail is dropped and
its text cannot influence the output): two tails with at least 2 tokens
and the same tokens after the first normalize identically, whatever
their first tokens are. -/
theorem c8_first_token_dropped (s t : String) (hs : 2 ≤ (goFields s).length)
    (hst : (goFields s).drop 1 = (goFields t).drop 1) :
    cleanPDFFieldName s = cleanPDFFieldName t := by
  have h1 : 1 ≤ ((goFields s).drop 1).length := by
    rw [List.length_drop]; omega
  have ht : 2 ≤ (goFields t).length := by
    rw [hst, List.length_drop] at h1; omega
  rw [cleanPDFFieldName_eq_normTail s hs, cleanPDFFieldName_eq_normTail t ht, hst]

/-- Witness for C8: the tails `"1 Full Name"` and `"zz Full Name"`
differ only in their first token and normalize identically. -/
theorem c8_first_token_dropped_witness :
    2 ≤ (goFields "1 Full Name").length ∧
    (goFields "1 Full Name").drop 1 = (goFields "zz Full Name").drop 1 ∧
    cleanPDFFieldName "1 Full Name" = cleanPDFFieldName "zz Full Name" :=
  ⟨by decide, by decide,
    c8_first_token_dropped "1 Full Name" "zz Full Name" (by decide) (by decide)⟩

/-! ### HTML extraction -/

/-- A DOM element handle as the HTML extractor reads it: each attribute
is `none` when absent (or when the driver's attribute read fails) and
`some v` when present with value `v` (possibly empty). -/
structure Element where
  typeAttr : Option String
  nameAttr : Option String
  idAttr : Option String
  ariaLabel : Option String
  placeholder : Option String
  requiredAttr : Option String
deriving DecidableEq

/-- Embeds the label chain of `HTMLFormExtractor.Extract`
(pkg/scrapper/html.go, lines 65-89); `lf` models the page query for a
`label[for=id]` element's text (`none` when no such element is found or
its text cannot be read), `n` is the element's `name` attribute value. -/
def resolveLabel (lf : String → Option String) (e : Element) (n : String) : String :=
  let l0 : String :=
    match e.idAttr with
    | some i =>
      match lf i with
      | some t => t
      | none => ""
    | none => ""
  let l1 :=
    if l0 = "" then
      match e.ariaLabel with
      | some a => a
      | none => l0
    else l0
  let l2 :=
    if l1 = "" then
      match e.placeholder with
      | some p => p
      | none => l1
    else l1
  if l2 = "" then n else l2

/-- Embeds the element loop of `HTMLFormExtractor.Extract`
(pkg/scrapper/html.go, lines 54-102). -/
def htmlExtract (lf : String → Option String) : List Element → List FormField
  | [] => []
  | e :: es =>
    let typeStr :=
      match e.typeAttr with
      | some t => t
      | none => "text"
    match e.nameAttr with
    | none => htmlExtract lf es
    | some n =>
      { name := n, type := typeStr, label := resolveLabel lf e n,
        required := e.requiredAttr.isSome, value := "" } :: htmlExtract lf es

/-- Spec wording: the first non-empty string in the list, or the
default. -/
def firstNonemptyOr (cands : List String) (dflt : String) : String :=
  match cands.find? (fun s => !(s == "")) with
  | some s => s
  | none => dflt

/-- Spec wording: the label candidates in priority order — for-linked
label text, `aria-label`, `placeholder`. -/
def labelCands (lf : String → Option String) (e : Element) : List String :=
  [(match e.idAttr with
    | some i => (lf i).getD ""
    | none => ""),
   e.ariaLabel.getD "",
   e.placeholder.getD ""]

/-- The nested-if normal form of the code's label chain. -/
def chain3 (a b c n : String) : String :=
  let l1 := if a = "" then b else a
  let l2 := if l1 = "" then c else l1
  if l2 = "" then n else l2

lemma resolveLabel_eq_chain3 (lf : String → Option String) (e : Element) (n : String) :
    resolveLabel lf e n =
      chain3
        (match e.idAttr with
         | some i => (lf i).getD ""
         | none => "")
        (e.ariaLabel.getD "") (e.placeholder.getD "") n := by
  rcases e with ⟨ty, na, id, ar, ph, rq⟩
  rcases id with _ | i
  · rcases ar with _ | a <;> rcases ph with _ | p <;>
      simp only [resolveLabel, chain3, Option.getD_some, Option.getD_none] <;>
      split_ifs <;> simp_all
  · cases hlf : lf i <;>
      rcases ar with _ | a <;> rcases ph with _ | p <;>
      simp only [resolveLabel, chain3, Option.getD_some, Option.getD_none, hlf] <;>
      split_ifs <;> simp_all

lemma chain3_eq_firstNonemptyOr (a b c n : String) :
    chain3 a b c n = firstNonemptyOr [a, b, c] n := by
  by_cases ha : a = "" <;> by_cases hb : b = "" <;> by_cases hc : c = "" <;>
    simp [chain3, firstNonemptyOr, List.find?_cons, beq_iff_eq, ha, hb, hc]

lemma resolveLabel_eq_spec (lf : String → Option String) (e : Element) (n : String) :
    resolveLabel lf e n = firstNonemptyOr (labelCands lf e) n := by
  rw [resolveLabel_eq_chain3, chain3_eq_firstNonemptyOr]; rfl

lemma firstNonemptyOr_ne (cands : List String) (n : String) (hn : n ≠ "") :
    firstNonemptyOr cands n ≠ "" := by
  unfold firstNonemptyOr
  cases hf : cands.find? (fun s => !(s == "")) with
  | none => exact hn
  | some s =>
    have hp := List.find?_some hf
    simpa [beq_iff_eq] using hp

lemma resolveLabel_ne (lf : String → Option String) (e : Element) (n : String)
    (hn : n ≠ "") : resolveLabel lf e n ≠ "" := by
  rw [resolveLabel_eq_spec]
  exact firstNonemptyOr_ne _ _ hn

/-- C3: for an element with a non-empty `name` attribute, the label
resolution of `HTMLFormExtractor.Extract` returns the first non-empty
candidate in the order for-linked label text, `aria-label`,
`placeholder`, falling back to the `name` value; in particular a
populated for-linked label text wins outright, and the result is never
empty. -/
theorem c3_label_resolution (lf : String → Option String) (e : Element) (n : String)
    (hna : e.nameAttr = some n) (hn : n ≠ "") :
    resolveLabel lf e n = firstNonemptyOr (labelCands lf e) n ∧
    resolveLabel lf e n ≠ "" ∧
    (∀ i t, e.idAttr = some i → lf i = some t → t ≠ "" →
      resolveLabel lf e n = t) := by
  refine ⟨resolveLabel_eq_spec lf e n, resolveLabel_ne lf e n hn, ?_⟩
  intro i t hi ht htne
  rw [resolveLabel_eq_spec]
  simp [labelCands, firstNonemptyOr, List.find?_cons, hi, ht, beq_iff_eq, htne]

/-- A concrete page-query map used by the C3 witness. -/
def pageW : String → Option String :=
  fun i => if i = "fname" then some "First name" else none

/-- A concrete element used by the C3 witness: it has an `id` with a
populated for-linked label as well as competing `aria-label` and
`placeholder` values. -/
def elemW : Element :=
  { typeAttr := some "text", nameAttr := some "fn", idAttr := some "fname",
    ariaLabel := some "ARIA", placeholder := some "PH", requiredAttr := none }

/-- Witness for C3 at `elemW`/`pageW`. -/
theorem c3_label_resolution_witness :
    elemW.nameAttr = some "fn" ∧ ("fn" : String) ≠ "" ∧
    (resolveLabel pageW elemW "fn" = firstNonemptyOr (labelCands pageW elemW) "fn" ∧
     resolveLabel pageW elemW "fn" ≠ "" ∧
     (∀ i t, elemW.idAttr = some i → pageW i = some t → t ≠ "" →
       resolveLabel pageW elemW "fn" = t)) :=
  ⟨rfl, by decide, c3_label_resolution pageW elemW "fn" rfl (by decide)⟩

/-- C7 (amended): the emitted `type` is the element's `type` attribute
value whenever the attribute is present — including when it is the
empty string — and the literal `"text"` only when the attribute is
absent (the original claim's fallback for a present-but-empty attribute
does not happen). -/
theorem c7_type_attribute_amended (lf : String → Option String) (els : List Element) :
    (htmlExtract lf els).map (fun f => f.type) =
      (els.filter (fun e => e.nameAttr.isSome)).map
        (fun e => e.typeAttr.getD "text") := by
  induction els with
  | nil => rfl
  | cons e es ih =>
    cases hna : e.nameAttr <;> cases hty : e.typeAttr <;>
      simp [htmlExtract, List.filter_cons, hna, hty, ih]

/-- Counterexample to C7 as stated: an element whose `type` attribute is
present but empty is emitted with type `""`, not the claimed `"text"`. -/
theorem c7_type_attribute_counterexample :
    (htmlExtract (fun _ => none)
        [{ typeAttr := some "", nameAttr := some "n", idAttr := none,
           ariaLabel := none, placeholder := none, requiredAttr := none }]).map
        (fun f => f.type) = [""] ∧
    ("" : String) ≠ "text" := by decide

/-- C1 (amended): every `FormField` emitted by the HTML extractor from
elements whose `name` attribute is never present-but-empty has a
non-empty name and a non-empty label; the PDF extractor does not share
this invariant (see the counterexample). -/
theorem c1_nonempty_fields_amended (lf : String → Option String) (els : List Element)
    (h : ∀ e ∈ els, e.nameAttr ≠ some "") :
    ∀ f ∈ htmlExtract lf els, f.name ≠ "" ∧ f.label ≠ "" := by
  induction els with
  | nil => intro f hf; simp [htmlExtract] at hf
  | cons e es ih =>
    intro f hf
    have he : e.nameAttr ≠ some "" := h e (List.mem_cons_self e es)
    have hes : ∀ x ∈ es, x.nameAttr ≠ some "" :=
      fun x hx => h x (List.mem_cons_of_mem e hx)
    cases hna : e.nameAttr with
    | none =>
      simp only [htmlExtract, hna] at hf
      exact ih hes f hf
    | some n =>
      have hn : n ≠ "" := by
        intro hcon
        exact he (by rw [hna, hcon])
      simp only [htmlExtract, hna, List.mem_cons] at hf
      rcases hf with hf | hf
      · subst hf
        exact ⟨hn, resolveLabel_ne lf e n hn⟩
      · exact ih hes f hf

/-- Witness for C1 (amended) on a one-element page. -/
theorem c1_nonempty_fields_amended_witness :
    (∀ e ∈ [({ typeAttr := none, nameAttr := some "email", idAttr := none,
               ariaLabel := none, placeholder := none,
               requiredAttr := none } : Element)], e.nameAttr ≠ some "") ∧
    (∀ f ∈ htmlExtract (fun _ => none)
        [({ typeAttr := none, nameAttr := some "email", idAttr := none,
            ariaLabel := none, placeholder := none,
            requiredAttr := none } : Element)],
      f.name ≠ "" ∧ f.label ≠ "") :=
  ⟨by decide, c1_nonempty_fields_amended (fun _ => none) _ (by decide)⟩

/-- Counterexample to C1 as stated: the 3-token PDF descriptor
`"a b c"` has an empty name tail, and the extractor emits a `FormField`
whose name and label are both empty. -/
theorem c1_nonempty_fields_counterexample :
    ¬ (∀ f ∈ pdfExtract ["a b c"], f.name ≠ "" ∧ f.label ≠ "") := by decide

/-! ### Dispatch and lifecycle -/

/-- ASCII case mapping of Go `strings.ToLower` (no code point outside
ASCII lower-cases to any character of `".pdf"`, so this restriction is
faithful for the dispatch test). -/
def goToLowerChar (c : Char) : Char :=
  if 'A' ≤ c && c ≤ 'Z' then Char.ofNat (c.toNat + 32) else c

/-- Embeds Go `strings.ToLower` (character-wise). -/
def goToLower (s : String) : String :=
  String.mk (s.data.map goToLowerChar)

/-- Embeds Go `strings.HasSuffix`. -/
def goHasSuffix (s suffix : String) : Bool :=
  List.isSuffixOf suffix.data s.data

/-- The two extraction strategies the dispatcher can select. -/
inductive ExtractorKind where
  | pdf
  | html
deriving DecidableEq

/-- Embeds the selection test of `Scrapper.newFormExtractor`
(scrapper.go, lines 47-52): PDF when the lower-cased reference ends in
`".pdf"`, HTML otherwise. -/
def newFormExtractorChoice (url : String) : ExtractorKind :=
  if goHasSuffix (goToLower url) ".pdf" then ExtractorKind.pdf else ExtractorKind.html

/-- Spec wording: the reference, compared case-insensitively, ends with
the extension `.pdf` — its last four characters, lower-cased, are
`.`, `p`, `d`, `f`. -/
def endsWithPdfCI (url : String) : Bool :=
  match url.data.reverse with
  | f :: d :: p :: dot :: _ =>
    goToLowerChar f == 'f' && goToLowerChar d == 'd' &&
      goToLowerChar p == 'p' && goToLowerChar dot == '.'
  | _ => false

lemma hasSuffix_lower_eq_ci (l : List Char) :
    List.isSuffixOf ('.' :: 'p' :: 'd' :: 'f' :: []) (l.map goToLowerChar) =
      (match l.reverse with
       | f :: d :: p :: dot :: _ =>
         goToLowerChar f == 'f' && goToLowerChar d == 'd' &&
           goToLowerChar p == 'p' && goToLowerChar dot == '.'
       | _ => false) := by
  show List.isPrefixOf ('f' :: 'd' :: 'p' :: '.' :: [])
      ((l.map goToLowerChar).reverse) = _
  rw [← List.map_reverse]
  rcases hr : l.reverse with _ | ⟨f, _ | ⟨d, _ | ⟨p, _ | ⟨dot, rest⟩⟩⟩⟩ <;>
    simp [List.isPrefixOf, BEq.comm, Bool.and_comm, Bool.and_assoc,
      Bool.and_left_comm]

/-- C4: the dispatcher selects the PDF path exactly when the reference,
compared case-insensitively, ends with `.pdf`; mixed-case
`"https://x/y/form.PDF"` selects PDF and extensionless
`"https://x/y/apply"` selects HTML. -/
theorem c4_dispatch_rule :
    (∀ url : String,
      newFormExtractorChoice url = ExtractorKind.pdf ↔ endsWithPdfCI url = true) ∧
    newFormExtractorChoice "https://x/y/form.PDF" = ExtractorKind.pdf ∧
    newFormExtractorChoice "https://x/y/apply" = ExtractorKind.html := by
  refine ⟨?_, by decide, by decide⟩
  intro url
  unfold newFormExtractorChoice endsWithPdfCI goHasSuffix goToLower
  have hb := hasSuffix_lower_eq_ci url.data
  constructor
  · intro h
    by_cases hc : List.isSuffixOf ".pdf".data (String.mk (url.data.map goToLowerChar)).data
    · rw [← hb]; exact hc
    · rw [if_neg hc] at h; exact absurd h (by simp)
  · intro h
    have hc : List.isSuffixOf ".pdf".data (String.mk (url.data.map goToLowerChar)).data := by
      show List.isSuffixOf ('.' :: 'p' :: 'd' :: 'f' :: []) (url.data.map goToLowerChar) = true
      rw [hb]; exact h
    rw [if_pos hc]

/-- Abstracted behaviour of a constructed `FormExtractor`: the outcome
its `Extract` method will produce. -/
structure ExtractorB where
  extractResult : Except String (List FormField)

/-- The external collaborators of `Scrapper.ExtractFields`: the outcome
of `NewPDFFormExtractor` for a URL, and of `NewHTMLFormExtractor` for a
URL and a timeout (in nanoseconds, Go `time.Duration`). -/
structure World where
  pdfCtor : String → Except String ExtractorB
  htmlCtor : String → Nat → Except String ExtractorB

/-- Embeds the `Config` record (pkg/scrapper/types.go). -/
structure GoConfig where
  timeout : Nat
  maxAttempts : Int
deriving DecidableEq

/-- Embeds `defaultConfig` (pkg/scrapper/types.go): 30 s timeout,
3 attempts. -/
def defaultConfig : GoConfig :=
  { timeout := 30000000000, maxAttempts := 3 }

/-- Embeds `WithTimeout`. -/
def withTimeout (t : Nat) : GoConfig → GoConfig :=
  fun c => { c with timeout := t }

/-- Embeds `WithMaxAttempts`. -/
def withMaxAttempts (n : Int) : GoConfig → GoConfig :=
  fun c => { c with maxAttempts := n }

/-- Embeds `New` (scrapper.go, lines 20-28): fold the option functions
over the default configuration. -/
def scrapperNew (opts : List (GoConfig → GoConfig)) : GoConfig :=
  opts.foldl (fun c o => o c) defaultConfig

/-- Embeds `Scrapper.newFormExtractor` (scrapper.go, lines 47-52)
against the collaborator outcomes in `w`. -/
def newFormExtractorM (w : World) (cfg : GoConfig) (url : String) :
    Except String ExtractorB :=
  if goHasSuffix (goToLower url) ".pdf" then w.pdfCtor url
  else w.htmlCtor url cfg.timeout

/-- Embeds `Scrapper.ExtractFields` (scrapper.go, lines 31-44) with its
observable resource events: the second component counts the calls to
the constructed extractor's `Close` (run by `defer extractor.Close()`
on every return path after successful construction). -/
def extractFieldsTrace (w : World) (cfg : GoConfig) (url : String) :
    Except String (List FormField) × Nat :=
  match newFormExtractorM w cfg url with
  | Except.error e => (Except.error ("failed to create form extractor: " ++ e), 0)
  | Except.ok ex =>
    match ex.extractResult with
    | Except.error e => (Except.error ("failed to extract fields: " ++ e), 1)
    | Except.ok fs => (Except.ok fs, 1)

/-- C9: whenever the dispatcher constructs an extractor, its `Close` is
invoked exactly once before `ExtractFields` returns, both on extraction
success and on extraction failure, and an extraction error is still
reported to the caller (wrapped in the dispatcher's message). -/
theorem c9_close_exactly_once (w : World) (cfg : GoConfig) (url : String)
    (ex : ExtractorB) (h : newFormExtractorM w cfg url = Except.ok ex) :
    (extractFieldsTrace w cfg url).2 = 1 ∧
    (∀ e, ex.extractResult = Except.error e →
      (extractFieldsTrace w cfg url).1 =
        Except.error ("failed to extract fields: " ++ e)) ∧
    (∀ fs, ex.extractResult = Except.ok fs →
      (extractFieldsTrace w cfg url).1 = Except.ok fs) := by
  have key : extractFieldsTrace w cfg url =
      match ex.extractResult with
      | Except.error e => (Except.error ("failed to extract fields: " ++ e), 1)
      | Except.ok fs => (Except.ok fs, 1) := by
    unfold extractFieldsTrace
    rw [h]
  cases hr : ex.extractResult with
  | error e =>
    have key2 : extractFieldsTrace w cfg url =
        (Except.error ("failed to extract fields: " ++ e), 1) := by
      rw [key, hr]
    refine ⟨by rw [key2], ?_, ?_⟩
    · intro e2 he
      injection he with hee
      rw [key2, hee]
    · intro fs hf
      exact absurd hf (by simp)
  | ok fs =>
    have key2 : extractFieldsTrace w cfg url = (Except.ok fs, 1) := by
      rw [key, hr]
    refine ⟨by rw [key2], ?_, ?_⟩
    · intro e2 he
      exact absurd he (by simp)
    · intro fs2 hf
      injection hf with hff
      rw [key2, hff]

/-- A concrete collaborator world for the C9 witness: the PDF
constructor succeeds with an extractor whose extraction fails. -/
def worldW : World :=
  { pdfCtor := fun _ => Except.ok { extractResult := Except.error "boom" },
    htmlCtor := fun _ _ => Except.ok { extractResult := Except.ok [] } }

/-- Witness for C9: on `"f.pdf"` the constructed extractor fails to
extract; `Close` still runs exactly once and the error is reported. -/
theorem c9_close_exactly_once_witness :
    newFormExtractorM worldW defaultConfig "f.pdf" =
      Except.ok { extractResult := Except.error "boom" } ∧
    ((extractFieldsTrace worldW defaultConfig "f.pdf").2 = 1 ∧
     (∀ e, ({ extractResult := Except.error "boom" } : ExtractorB).extractResult =
         Except.error e →
       (extractFieldsTrace worldW defaultConfig "f.pdf").1 =
         Except.error ("failed to extract fields: " ++ e)) ∧
     (∀ fs, ({ extractResult := Except.error "boom" } : ExtractorB).extractResult =
         Except.ok fs →
       (extractFieldsTrace worldW defaultConfig "f.pdf").1 = Except.ok fs)) :=
  ⟨rfl, c9_close_exactly_once worldW defaultConfig "f.pdf"
    { extractResult := Except.error "boom" } rfl⟩

/-- C10: `MaxAttempts` is never read on the extraction path — for the
same collaborators, URL and timeout, two configurations that differ
only in `maxAttempts` (whether built through `New`/`WithMaxAttempts` or
directly) produce identical results and identical close traces, so no
retry depends on it. -/
theorem c10_max_attempts_unread (w : World) (url : String) (t : Nat) (a₁ a₂ : Int) :
    extractFieldsTrace w (scrapperNew [withTimeout t, withMaxAttempts a₁]) url =
      extractFieldsTrace w (scrapperNew [withTimeout t, withMaxAttempts a₂]) url ∧
    extractFieldsTrace w { timeout := t, maxAttempts := a₁ } url =
      extractFieldsTrace w { timeout := t, maxAttempts := a₂ } url :=
  ⟨rfl, rfl⟩
